import Mathlib

set_option maxHeartbeats 1000000

/-!
Shallow embedding of the diskspice scanner core
(src/DiskSpice/Scanner/diskspice-scanner/src/scanner.rs).

The filesystem is modelled as an inductive tree mirroring exactly what the
code observes: `read_dir` results (`FsListing`), the iterator of entry
results (`FsEntries`), and per-entry data (`FsEntry`): its name, the result
of `entry.metadata()`, the result of `entry.file_type().map(is_symlink)`,
and the listing that `read_dir` would produce on that entry's path.
Control (pause / resume / cancel / refresh) is modelled by a `ControlState`
whose `sched` field lists, for each successive call to `process_commands`,
the batch of commands drained from the channel at that call; an exhausted
schedule while paused corresponds to the scanner sleeping forever, which
the scan functions report as `none` (divergence).  Emitted events are
collected in order into a list instead of being serialized to stdout.
-/

structure FsMeta where
  len : Nat
  isDir : Bool
  modified : Option Nat
  deriving DecidableEq, Repr

structure FileEntry where
  path : String
  name : String
  size : Nat
  is_dir : Bool
  is_symlink : Bool
  modified : Option Nat
  item_count : Nat
  file_type : String
  deriving DecidableEq, Repr

inductive ControlCommand : Type where
  | Pause : ControlCommand
  | Resume : ControlCommand
  | Cancel : ControlCommand
  | Refresh (path : String) : ControlCommand
  deriving DecidableEq, Repr

inductive ScanMessage : Type where
  | Entry (e : FileEntry) : ScanMessage
  | FolderComplete (path : String) (total_size : Nat) : ScanMessage
  | Error (path : String) (message : String) : ScanMessage
  | Status (status : String) : ScanMessage
  | Done (total_size : Nat) (total_items : Nat) : ScanMessage
  deriving DecidableEq, Repr

mutual
inductive FsListing : Type where
  | err (msg : String) : FsListing
  | ok (entries : FsEntries) : FsListing

inductive FsEntries : Type where
  | nil : FsEntries
  | cons (e : FsEntry) (rest : FsEntries) : FsEntries

inductive FsEntry : Type where
  | iterErr (msg : String) : FsEntry
  | node (name : String) (metaRes : Except String FsMeta)
      (symRes : Except String Bool) (sub : FsListing) : FsEntry
end

/-- `entry.path()`: the directory path joined with the entry's file name. -/
def childPath (p n : String) : String := p ++ "/" ++ n

/-- Final path component (after the last '/'), as used by `Path::file_name`
and `Path::extension`. -/
def lastComponent (p : String) : String :=
  String.mk ((p.data.reverse.takeWhile (fun c => c ≠ '/')).reverse)

/-- `Path::extension().map(to_lowercase)`: text after the last '.' of the
final component; empty if there is no '.' or the only '.' is leading.
Lowercasing is ASCII (the taxonomy only contains ASCII extensions). -/
def extensionOf (p : String) : String :=
  let revf := (lastComponent p).data.reverse
  let ext := revf.takeWhile (fun c => c ≠ '.')
  if ext.length = revf.length then ""
  else if ext.length + 1 = revf.length then ""
  else String.mk (ext.reverse.map Char.toLower)

/-- `Scanner::detect_file_type`. -/
def detect_file_type (p : String) : String :=
  match extensionOf p with
  | "mp4" | "mov" | "avi" | "mkv" | "wmv" | "flv" | "webm" => "video"
  | "mp3" | "wav" | "aac" | "flac" | "ogg" | "m4a" => "audio"
  | "jpg" | "jpeg" | "png" | "gif" | "bmp" | "svg" | "webp" | "heic" => "image"
  | "swift" | "rs" | "js" | "ts" | "py" | "rb" | "go" | "java" | "c" | "cpp" | "h" => "code"
  | "zip" | "tar" | "gz" | "rar" | "7z" | "dmg" | "iso" => "archive"
  | "app" | "exe" | "dll" | "so" | "dylib" => "application"
  | "plist" | "kext" => "system"
  | "cache" | "tmp" | "log" => "cache"
  | "pdf" | "doc" | "docx" | "txt" | "md" | "rtf" | "xls" | "xlsx" => "document"
  | _ => "other"

/-- Shared scanner control state: the two atomic flags plus the schedule of
command batches the channel will deliver at successive drain calls. -/
structure ControlState where
  paused : Bool
  cancelled : Bool
  sched : List (List ControlCommand)
  deriving DecidableEq, Repr

/-- A `Scanner::new()` scanner: flags clear, no control channel. -/
def ctl0 : ControlState := ⟨false, false, []⟩

/-- Effect of one received command on the flags (the match arms of
`process_commands`), together with the `Status` event it emits. -/
def applyCommand (paused cancelled : Bool) :
    ControlCommand → Bool × Bool × List ScanMessage
  | .Pause => (true, cancelled, [ScanMessage.Status "paused"])
  | .Resume => (false, cancelled, [ScanMessage.Status "resumed"])
  | .Cancel => (paused, true, [ScanMessage.Status "cancelled"])
  | .Refresh p => (paused, cancelled, [ScanMessage.Status ("refreshing:" ++ p)])

/-- Processing a drained batch of commands in order. -/
def applyCommands (paused cancelled : Bool) :
    List ControlCommand → Bool × Bool × List ScanMessage
  | [] => (paused, cancelled, [])
  | cmd :: rest =>
    let (p1, c1, e1) := applyCommand paused cancelled cmd
    let (p2, c2, e2) := applyCommands p1 c1 rest
    (p2, c2, e1 ++ e2)

/-- `Scanner::process_commands`: drain whatever is pending (one scheduled
batch) and apply it. -/
def process_commands (c : ControlState) : ControlState × List ScanMessage :=
  match c.sched with
  | [] => (c, [])
  | b :: rest =>
    let (p, cc, evs) := applyCommands c.paused c.cancelled b
    (⟨p, cc, rest⟩, evs)

/-- The `while paused` spin of `check_control`: each iteration drains one
scheduled batch and re-checks the flags; spinning with an exhausted
schedule sleeps forever (`none`). -/
def pauseSpin : Bool → Bool → List (List ControlCommand) →
    Option (ControlState × List ScanMessage)
  | false, cancelled, sched => some (⟨false, cancelled, sched⟩, [])
  | true, _, [] => none
  | true, cancelled, b :: rest =>
    let (p1, c1, e1) := applyCommands true cancelled b
    if c1 then some (⟨p1, c1, rest⟩, e1)
    else
      match pauseSpin p1 c1 rest with
      | none => none
      | some (st, e2) => some (st, e1 ++ e2)

/-- `Scanner::check_control`: `some (cont, c', evs)` returns whether to
continue, the new control state and the `Status` events emitted; `none`
models the never-ending pause sleep. -/
def check_control (c : ControlState) :
    Option (Bool × ControlState × List ScanMessage) :=
  if c.cancelled then some (false, c, [])
  else
    match pauseSpin c.paused c.cancelled c.sched with
    | none => none
    | some (c1, e1) =>
      if c1.cancelled then some (false, c1, e1)
      else
        let (c2, e2) := process_commands c1
        some (!c2.cancelled, c2, e1 ++ e2)

/-- The `FileEntry` record built for one directory entry. -/
def mkFileEntry (p n : String) (size : Nat) (m : FsMeta) (isSym : Bool)
    (ic : Nat) : FileEntry :=
  { path := p, name := n, size := size, is_dir := m.isDir,
    is_symlink := isSym, modified := m.modified, item_count := ic,
    file_type := detect_file_type p }

mutual
/-- `Scanner::scan_directory`: the result is
`some (total_size, total_items, control state, events emitted in order)`,
or `none` if a pause never ends. -/
def scan_directory (emit_entries : Bool) (path : String) (l : FsListing)
    (c : ControlState) : Option (Nat × Nat × ControlState × List ScanMessage) :=
  match check_control c with
  | none => none
  | some (cont, c1, e1) =>
    if cont then
      match l with
      | .err msg =>
        some (0, 0, c1, e1 ++ (if emit_entries then [ScanMessage.Error path msg] else []))
      | .ok es =>
        match scan_entries emit_entries path es 0 0 c1 with
        | none => none
        | some (ts, ti, c2, e2, early) =>
          some (ts, ti, c2,
            e1 ++ e2 ++
              (if early then []
               else if emit_entries then [ScanMessage.FolderComplete path ts] else []))
    else some (0, 0, c1, e1)

/-- The `for entry in entries` loop of `scan_directory`, with the totals
accumulated so far; the final `Bool` records whether the loop was abandoned
by a failed checkpoint (in which case no `FolderComplete` follows). -/
def scan_entries (emit_entries : Bool) (dirPath : String) (es : FsEntries)
    (ts ti : Nat) (c : ControlState) :
    Option (Nat × Nat × ControlState × List ScanMessage × Bool) :=
  match es with
  | .nil => some (ts, ti, c, [], false)
  | .cons (.iterErr msg) rest =>
    match scan_entries emit_entries dirPath rest ts ti c with
    | none => none
    | some (ts', ti', c', evs, early) =>
      some (ts', ti', c', ScanMessage.Error dirPath msg :: evs, early)
  | .cons (.node name metaRes symRes sub) rest =>
    match check_control c with
    | none => none
    | some (cont, c1, e1) =>
      if cont then
        match metaRes with
        | .error msg =>
          match scan_entries emit_entries dirPath rest ts ti c1 with
          | none => none
          | some (ts', ti', c', evs, early) =>
            some (ts', ti', c',
              e1 ++ ScanMessage.Error (childPath dirPath name) msg :: evs, early)
        | .ok m =>
          let isSym := (Except.toOption symRes).getD false
          if m.isDir && !isSym then
            match scan_directory emit_entries (childPath dirPath name) sub c1 with
            | none => none
            | some (sz, ic, c2, e2) =>
              match scan_entries emit_entries dirPath rest (ts + sz) (ti + ic) c2 with
              | none => none
              | some (ts', ti', c3, e3, early) =>
                some (ts', ti', c3,
                  e1 ++ e2 ++
                    (if emit_entries then
                      [ScanMessage.Entry
                        (mkFileEntry (childPath dirPath name) name sz m isSym ic)]
                     else []) ++ e3, early)
          else
            match scan_entries emit_entries dirPath rest (ts + m.len) (ti + 1) c1 with
            | none => none
            | some (ts', ti', c', evs, early) =>
              some (ts', ti', c',
                e1 ++
                  (if emit_entries then
                    [ScanMessage.Entry
                      (mkFileEntry (childPath dirPath name) name m.len m isSym 1)]
                   else []) ++ evs, early)
      else some (ts, ti, c1, e1, true)
end

/-- `Scanner::scan`: `none` in the filesystem argument models a root path
for which `path.exists()` is false. -/
def scan (root : String) (fs : Option FsListing) (c : ControlState) :
    Option (List ScanMessage) :=
  match fs with
  | none => some [ScanMessage.Error root "Path does not exist"]
  | some l =>
    match scan_directory true root l c with
    | none => none
    | some (ts, ti, _, evs) => some (evs ++ [ScanMessage.Done ts ti])

/-- `compute_directory_totals`: a fresh `Scanner::new()` (so control state
`ctl0`) scanning with events suppressed. -/
def compute_directory_totals (root : String) (fs : Option FsListing) :
    Except String (Nat × Nat) :=
  match fs with
  | none => Except.error "Path does not exist"
  | some l =>
    match scan_directory false root l ctl0 with
    | none => Except.error "diverged"
    | some (ts, ti, _, _) => Except.ok (ts, ti)

/-! ## Specification-side definitions

These are written from the specification's words, to be compared with the
scanner functions above. -/

mutual
/-- A tree containing "only regular files": the listing is readable, every
entry's metadata is available, no entry is a symlink (the `file_type`
probe succeeds and reports false), and every subdirectory is again clean. -/
def cleanL : FsListing → Bool
  | .err _ => false
  | .ok es => cleanE es

def cleanE : FsEntries → Bool
  | .nil => true
  | .cons e rest => cleanEntry e && cleanE rest

def cleanEntry : FsEntry → Bool
  | .iterErr _ => false
  | .node _ (.error _) _ _ => false
  | .node _ (.ok _) (.error _) _ => false
  | .node _ (.ok m) (.ok s) sub =>
    !s && (if m.isDir then cleanL sub else true)
end

mutual
/-- Spec: the sum of all file byte sizes in the tree (directory nodes
contribute only their contents, entries that failed contribute nothing). -/
def filesSizeL : FsListing → Nat
  | .err _ => 0
  | .ok es => filesSizeE es

def filesSizeE : FsEntries → Nat
  | .nil => 0
  | .cons e rest => filesSizeEntry e + filesSizeE rest

def filesSizeEntry : FsEntry → Nat
  | .iterErr _ => 0
  | .node _ (.error _) _ _ => 0
  | .node _ (.ok m) _ sub => if m.isDir then filesSizeL sub else m.len
end

mutual
/-- Spec: the number of files in the tree, directory nodes excluded. -/
def fileCountL : FsListing → Nat
  | .err _ => 0
  | .ok es => fileCountE es

def fileCountE : FsEntries → Nat
  | .nil => 0
  | .cons e rest => fileCountEntry e + fileCountE rest

def fileCountEntry : FsEntry → Nat
  | .iterErr _ => 0
  | .node _ (.error _) _ _ => 0
  | .node _ (.ok m) _ sub => if m.isDir then fileCountL sub else 1
end

mutual
/-- Claim C2's reading: the count of all descendant entries scanned
(directories included, each counted as one entry of its parent). -/
def entryCountL : FsListing → Nat
  | .err _ => 0
  | .ok es => entryCountE es

def entryCountE : FsEntries → Nat
  | .nil => 0
  | .cons e rest => entryCountEntry e + entryCountE rest

def entryCountEntry : FsEntry → Nat
  | .iterErr _ => 0
  | .node _ (.error _) _ _ => 0
  | .node _ (.ok m) symRes sub =>
    1 + (if m.isDir && !((Except.toOption symRes).getD false)
         then entryCountL sub else 0)
end

mutual
/-- The total size a command-free scan attributes to a subtree: each
readable non-symlink directory contributes its contents, every other
successfully-read entry its own metadata length. -/
def totalSizeL : FsListing → Nat
  | .err _ => 0
  | .ok es => totalSizeE es

def totalSizeE : FsEntries → Nat
  | .nil => 0
  | .cons e rest => totalSizeEntry e + totalSizeE rest

def totalSizeEntry : FsEntry → Nat
  | .iterErr _ => 0
  | .node _ (.error _) _ _ => 0
  | .node _ (.ok m) symRes sub =>
    if m.isDir && !((Except.toOption symRes).getD false)
    then totalSizeL sub else m.len
end

mutual
/-- The item count a command-free scan attributes to a subtree: each
readable non-symlink directory contributes its recursive count, every
other successfully-read entry contributes one. -/
def totalItemsL : FsListing → Nat
  | .err _ => 0
  | .ok es => totalItemsE es

def totalItemsE : FsEntries → Nat
  | .nil => 0
  | .cons e rest => totalItemsEntry e + totalItemsE rest

def totalItemsEntry : FsEntry → Nat
  | .iterErr _ => 0
  | .node _ (.error _) _ _ => 0
  | .node _ (.ok m) symRes sub =>
    if m.isDir && !((Except.toOption symRes).getD false)
    then totalItemsL sub else 1
end

mutual
/-- The full event sequence a command-free scan of a subtree produces:
depth-first post-order, one `Entry` per readable entry after its contents,
one `FolderComplete` per listed directory after its children's events, one
`Error` per failure (listing failures only when streaming; iteration and
metadata failures always). -/
def traceL (emit : Bool) (p : String) : FsListing → List ScanMessage
  | .err msg => if emit then [ScanMessage.Error p msg] else []
  | .ok es =>
    traceE emit p es ++
      (if emit then [ScanMessage.FolderComplete p (totalSizeE es)] else [])

def traceE (emit : Bool) (p : String) : FsEntries → List ScanMessage
  | .nil => []
  | .cons e rest => traceEntry emit p e ++ traceE emit p rest

def traceEntry (emit : Bool) (p : String) : FsEntry → List ScanMessage
  | .iterErr msg => [ScanMessage.Error p msg]
  | .node name (.error msg) _ _ => [ScanMessage.Error (childPath p name) msg]
  | .node name (.ok m) symRes sub =>
    let isSym := (Except.toOption symRes).getD false
    if m.isDir && !isSym then
      traceL emit (childPath p name) sub ++
        (if emit then
          [ScanMessage.Entry
            (mkFileEntry (childPath p name) name (totalSizeL sub) m isSym
              (totalItemsL sub))]
         else [])
    else
      if emit then
        [ScanMessage.Entry (mkFileEntry (childPath p name) name m.len m isSym 1)]
      else []
end

/-! ## Auxiliary definitions for the statements and proofs -/

def isDoneMsg : ScanMessage → Bool
  | .Done _ _ => true
  | _ => false

def noDoneIn (evs : List ScanMessage) : Prop :=
  ∀ ev ∈ evs, isDoneMsg ev = false

/-- Events of an optional pause-spin result. -/
def spinEvents : Option (ControlState × List ScanMessage) → List ScanMessage
  | none => []
  | some (_, e) => e

/-- Events of an optional checkpoint result. -/
def ctlEvents : Option (Bool × ControlState × List ScanMessage) → List ScanMessage
  | none => []
  | some (_, _, e) => e

/-- Events of an optional `scan_directory` result. -/
def dirEvents : Option (Nat × Nat × ControlState × List ScanMessage) → List ScanMessage
  | none => []
  | some (_, _, _, e) => e

/-- Events of an optional `scan_entries` result. -/
def entsEvents : Option (Nat × Nat × ControlState × List ScanMessage × Bool) → List ScanMessage
  | none => []
  | some (_, _, _, e, _) => e

/-- `entryPreceded prev evs` checks that every `Entry` event in `evs` whose
record says `is_dir` is directly preceded by a `FolderComplete` event for
the same path carrying that entry's `size` (with `prev` the event just
before `evs`, if any). -/
def entryPreceded : Option ScanMessage → List ScanMessage → Bool
  | _, [] => true
  | prev, ev :: rest =>
    (match ev with
     | ScanMessage.Entry fe =>
       if fe.is_dir then
         decide (prev = some (ScanMessage.FolderComplete fe.path fe.size))
       else true
     | _ => true) && entryPreceded (some ev) rest

/-- The last event of `prev :: evs`-style contexts. -/
def lastO (prev : Option ScanMessage) : List ScanMessage → Option ScanMessage
  | [] => prev
  | ev :: rest => lastO (some ev) rest

/-- Does the event list contain an `Entry` event? -/
def anyEntry : List ScanMessage → Bool
  | [] => false
  | ScanMessage.Entry _ :: _ => true
  | _ :: rest => anyEntry rest

/-- Claim C4's property: after a `Status "cancelled"` acknowledgement (the
checkpoint that observed the cancellation), no further `Entry` event
appears. -/
def noEntryAfterCancel : List ScanMessage → Bool
  | [] => true
  | ScanMessage.Status s :: rest =>
    if s = "cancelled" then !anyEntry rest else noEntryAfterCancel rest
  | _ :: rest => noEntryAfterCancel rest

/-- Does the event list contain a `FolderComplete` for the given path? -/
def hasFolderCompleteFor (p : String) : List ScanMessage → Bool
  | [] => false
  | ScanMessage.FolderComplete q _ :: rest => q == p || hasFolderCompleteFor p rest
  | _ :: rest => hasFolderCompleteFor p rest

/-- Example tree from the spec: `a.txt` (10 bytes) and `sub/b.bin`
(20 bytes). -/
def exTree : FsListing :=
  .ok (.cons (.node "a.txt" (.ok ⟨10, false, none⟩) (.ok false) (.err ""))
    (.cons (.node "sub" (.ok ⟨64, true, none⟩) (.ok false)
      (.ok (.cons (.node "b.bin" (.ok ⟨20, false, none⟩) (.ok false) (.err "")) .nil)))
      .nil))

/-- The subtree rooted at directory `a` of `c2Tree`: a directory `b`
holding one 3-byte file `f`. -/
def c2SubA : FsListing :=
  .ok (.cons (.node "b" (.ok ⟨64, true, none⟩) (.ok false)
    (.ok (.cons (.node "f" (.ok ⟨3, false, none⟩) (.ok false) (.err "")) .nil)))
    .nil)

/-- A root holding one directory `a` whose subtree is `c2SubA`. -/
def c2Tree : FsListing := .ok (.cons (.node "a" (.ok ⟨64, true, none⟩) (.ok false) c2SubA) .nil)

/-- A root holding one directory `sub` with one 5-byte file `f`. -/
def c4Tree : FsListing :=
  .ok (.cons (.node "sub" (.ok ⟨64, true, none⟩) (.ok false)
    (.ok (.cons (.node "f" (.ok ⟨5, false, none⟩) (.ok false) (.err "")) .nil)))
    .nil)

/-- Schedule delivering a `Cancel` at the third checkpoint drain: the
checkpoint at the start of scanning `sub`. -/
def c4Ctl : ControlState := ⟨false, false, [[], [], [ControlCommand.Cancel]]⟩

/-- A root holding one unreadable directory `d`. -/
def c10Tree : FsListing :=
  .ok (.cons (.node "d" (.ok ⟨64, true, none⟩) (.ok false) (.err "denied"))
    .nil)

/-- A root holding one entry `f` whose metadata retrieval fails. -/
def c7Tree : FsListing :=
  .ok (.cons (.node "f" (.error "boom") (.ok false) (.err "")) .nil)


/-! ## Basic control lemmas -/

theorem check_control_ctl0 : check_control ctl0 = some (true, ctl0, []) := rfl

theorem check_control_cancelled (c : ControlState) (h : c.cancelled = true) :
    check_control c = some (false, c, []) := by
  simp [check_control, h]

/-! ## The command-free scan computes the trace and the totals -/

mutual
theorem scan_directory_ctl0 (emit : Bool) (p : String) (l : FsListing) :
    scan_directory emit p l ctl0 =
      some (totalSizeL l, totalItemsL l, ctl0, traceL emit p l) := by
  cases l with
  | err msg =>
    simp [scan_directory, check_control_ctl0, totalSizeL, totalItemsL, traceL]
  | ok es =>
    have h := scan_entries_ctl0 emit p es 0 0
    simp [scan_directory, check_control_ctl0, h, totalSizeL, totalItemsL, traceL]

theorem scan_entries_ctl0 (emit : Bool) (p : String) (es : FsEntries) (ts ti : Nat) :
    scan_entries emit p es ts ti ctl0 =
      some (ts + totalSizeE es, ti + totalItemsE es, ctl0, traceE emit p es, false) := by
  cases es with
  | nil => simp [scan_entries, totalSizeE, totalItemsE, traceE]
  | cons e rest =>
    cases e with
    | iterErr msg =>
      have h := scan_entries_ctl0 emit p rest ts ti
      simp [scan_entries, h, totalSizeE, totalItemsE, traceE,
        totalSizeEntry, totalItemsEntry, traceEntry]
    | node name metaRes symRes sub =>
      cases metaRes with
      | error msg =>
        have h := scan_entries_ctl0 emit p rest ts ti
        simp [scan_entries, check_control_ctl0, h, totalSizeE, totalItemsE, traceE,
          totalSizeEntry, totalItemsEntry, traceEntry]
      | ok m =>
        by_cases hd : (m.isDir && !((Except.toOption symRes).getD false)) = true
        · have h1 := scan_directory_ctl0 emit (childPath p name) sub
          have h2 := scan_entries_ctl0 emit p rest (ts + totalSizeL sub) (ti + totalItemsL sub)
          simp [scan_entries, check_control_ctl0, hd, h1, h2, totalSizeE, totalItemsE,
            traceE, totalSizeEntry, totalItemsEntry, traceEntry, Nat.add_assoc]
        · have h := scan_entries_ctl0 emit p rest (ts + m.len) (ti + 1)
          simp [scan_entries, check_control_ctl0, hd, h, totalSizeE, totalItemsE,
            traceE, totalSizeEntry, totalItemsEntry, traceEntry, Nat.add_assoc]
end

/-! ## Clean trees: the scanned totals are the file sums -/

mutual
theorem totalSizeL_clean (l : FsListing) (h : cleanL l = true) :
    totalSizeL l = filesSizeL l := by
  cases l with
  | err msg => simp [cleanL] at h
  | ok es => simpa [totalSizeL, filesSizeL] using totalSizeE_clean es (by simpa [cleanL] using h)

theorem totalSizeE_clean (es : FsEntries) (h : cleanE es = true) :
    totalSizeE es = filesSizeE es := by
  cases es with
  | nil => rfl
  | cons e rest =>
    simp only [cleanE, Bool.and_eq_true] at h
    simp [totalSizeE, filesSizeE, totalSizeEntry_clean e h.1, totalSizeE_clean rest h.2]

theorem totalSizeEntry_clean (e : FsEntry) (h : cleanEntry e = true) :
    totalSizeEntry e = filesSizeEntry e := by
  cases e with
  | iterErr msg => simp [cleanEntry] at h
  | node name metaRes symRes sub =>
    cases metaRes with
    | error msg => simp [cleanEntry] at h
    | ok m =>
      cases symRes with
      | error msg => simp [cleanEntry] at h
      | ok s =>
        simp only [cleanEntry, Bool.and_eq_true, Bool.not_eq_true'] at h
        obtain ⟨hs, hrec⟩ := h
        subst hs
        cases hm : m.isDir with
        | false => simp [totalSizeEntry, filesSizeEntry, hm]
        | true =>
          have hsub := totalSizeL_clean sub (by simpa [hm] using hrec)
          simp [totalSizeEntry, filesSizeEntry, hm, hsub, Except.toOption]
end

mutual
theorem totalItemsL_clean (l : FsListing) (h : cleanL l = true) :
    totalItemsL l = fileCountL l := by
  cases l with
  | err msg => simp [cleanL] at h
  | ok es => simpa [totalItemsL, fileCountL] using totalItemsE_clean es (by simpa [cleanL] using h)

theorem totalItemsE_clean (es : FsEntries) (h : cleanE es = true) :
    totalItemsE es = fileCountE es := by
  cases es with
  | nil => rfl
  | cons e rest =>
    simp only [cleanE, Bool.and_eq_true] at h
    simp [totalItemsE, fileCountE, totalItemsEntry_clean e h.1, totalItemsE_clean rest h.2]

theorem totalItemsEntry_clean (e : FsEntry) (h : cleanEntry e = true) :
    totalItemsEntry e = fileCountEntry e := by
  cases e with
  | iterErr msg => simp [cleanEntry] at h
  | node name metaRes symRes sub =>
    cases metaRes with
    | error msg => simp [cleanEntry] at h
    | ok m =>
      cases symRes with
      | error msg => simp [cleanEntry] at h
      | ok s =>
        simp only [cleanEntry, Bool.and_eq_true, Bool.not_eq_true'] at h
        obtain ⟨hs, hrec⟩ := h
        subst hs
        cases hm : m.isDir with
        | false => simp [totalItemsEntry, fileCountEntry, hm]
        | true =>
          have hsub := totalItemsL_clean sub (by simpa [hm] using hrec)
          simp [totalItemsEntry, fileCountEntry, hm, hsub, Except.toOption]
end

mutual
theorem traceL_clean_quiet (p : String) (l : FsListing) (h : cleanL l = true) :
    traceL false p l = [] := by
  cases l with
  | err msg => simp [cleanL] at h
  | ok es => simpa [traceL] using traceE_clean_quiet p es (by simpa [cleanL] using h)

theorem traceE_clean_quiet (p : String) (es : FsEntries) (h : cleanE es = true) :
    traceE false p es = [] := by
  cases es with
  | nil => rfl
  | cons e rest =>
    simp only [cleanE, Bool.and_eq_true] at h
    simp [traceE, traceEntry_clean_quiet p e h.1, traceE_clean_quiet p rest h.2]

theorem traceEntry_clean_quiet (p : String) (e : FsEntry) (h : cleanEntry e = true) :
    traceEntry false p e = [] := by
  cases e with
  | iterErr msg => simp [cleanEntry] at h
  | node name metaRes symRes sub =>
    cases metaRes with
    | error msg => simp [cleanEntry] at h
    | ok m =>
      cases symRes with
      | error msg => simp [cleanEntry] at h
      | ok s =>
        simp only [cleanEntry, Bool.and_eq_true, Bool.not_eq_true'] at h
        obtain ⟨hs, hrec⟩ := h
        subst hs
        cases hm : m.isDir with
        | false => simp [traceEntry, hm]
        | true =>
          have hsub := traceL_clean_quiet (childPath p name) sub (by simpa [hm] using hrec)
          simp [traceEntry, hm, hsub]
end

/-! ## No `Done` is ever emitted inside the traversal itself -/

theorem noDoneIn_nil : noDoneIn [] := by intro ev h; cases h

theorem noDoneIn_append {xs ys : List ScanMessage}
    (hx : noDoneIn xs) (hy : noDoneIn ys) : noDoneIn (xs ++ ys) := by
  intro ev h
  rcases List.mem_append.mp h with h' | h'
  · exact hx ev h'
  · exact hy ev h'

theorem noDoneIn_cons {ev : ScanMessage} {ys : List ScanMessage}
    (hx : isDoneMsg ev = false) (hy : noDoneIn ys) : noDoneIn (ev :: ys) := by
  intro e h
  rcases List.mem_cons.mp h with h' | h'
  · subst h'; exact hx
  · exact hy e h'

theorem applyCommand_noDone (paused cancelled : Bool) (cmd : ControlCommand) :
    noDoneIn (applyCommand paused cancelled cmd).2.2 := by
  cases cmd <;> (intro ev h; simp [applyCommand] at h; subst h; rfl)

theorem applyCommands_noDone (paused cancelled : Bool) (cmds : List ControlCommand) :
    noDoneIn (applyCommands paused cancelled cmds).2.2 := by
  induction cmds generalizing paused cancelled with
  | nil => exact noDoneIn_nil
  | cons cmd rest ih =>
    have h1 := applyCommand_noDone paused cancelled cmd
    simp only [applyCommands]
    exact noDoneIn_append h1 (ih _ _)

theorem process_commands_noDone (c : ControlState) :
    noDoneIn (process_commands c).2 := by
  rcases c with ⟨p, cc, sched⟩
  cases sched with
  | nil => exact noDoneIn_nil
  | cons b rest =>
    simpa [process_commands] using applyCommands_noDone p cc b


theorem pauseSpin_noDone (sched : List (List ControlCommand)) :
    ∀ paused cancelled : Bool, noDoneIn (spinEvents (pauseSpin paused cancelled sched)) := by
  induction sched with
  | nil =>
    intro paused cancelled
    cases paused <;> simp [pauseSpin, spinEvents, noDoneIn_nil]
  | cons b rest ih =>
    intro paused cancelled
    cases paused with
    | false => simpa [pauseSpin, spinEvents] using noDoneIn_nil
    | true =>
      have hb := applyCommands_noDone true cancelled b
      rw [pauseSpin]
      rcases hr : applyCommands true cancelled b with ⟨p1, c1, e1⟩
      rw [hr] at hb
      cases c1 with
      | true => simpa [spinEvents] using hb
      | false =>
        have hrec := ih p1 false
        rcases hps : pauseSpin p1 false rest with _ | ⟨st2, e2⟩
        · simp [hps, spinEvents]
          exact noDoneIn_nil
        · rw [hps] at hrec
          simp only [hps, spinEvents, Bool.false_eq_true, if_false]
          exact noDoneIn_append hb hrec

theorem check_control_noDone (c : ControlState) :
    noDoneIn (ctlEvents (check_control c)) := by
  rcases c with ⟨pz, cz, sz⟩
  cases cz with
  | true => simpa [check_control, ctlEvents] using noDoneIn_nil
  | false =>
    rw [check_control]
    simp only
    have hspin := pauseSpin_noDone sz pz false
    rcases hps : pauseSpin pz false sz with _ | ⟨st1, e1⟩
    · simp [hps, ctlEvents]
      exact noDoneIn_nil
    · rw [hps] at hspin
      simp only [spinEvents] at hspin
      by_cases hst : st1.cancelled = true
    
      · simp [hps, hst, ctlEvents]
        exact hspin
      · have hpc := process_commands_noDone st1
        rcases hq : process_commands st1 with ⟨c2, e2⟩
        rw [hq] at hpc
        simp only at hpc
        simp [hps, hst, hq, ctlEvents]
        exact noDoneIn_append hspin hpc

mutual
theorem scan_directory_noDone (emit : Bool) (p : String) (l : FsListing)
    (c : ControlState) : noDoneIn (dirEvents (scan_directory emit p l c)) := by
  rw [scan_directory]
  have hcc := check_control_noDone c
  rcases hc : check_control c with _ | ⟨cont, c1, e1⟩
  · simp [dirEvents]
    exact noDoneIn_nil
  · rw [hc] at hcc
    simp only [ctlEvents] at hcc
    cases cont with
    | false =>
      simpa [dirEvents] using hcc
    | true =>
      simp only [if_true]
      cases l with
      | err msg =>
        simp only [dirEvents]
        refine noDoneIn_append hcc ?_
        cases emit with
        | false => simpa using noDoneIn_nil
        | true =>
          intro ev hev
          simp at hev
          subst hev
          rfl
      | ok es =>
        have hse := scan_entries_noDone emit p es 0 0 c1
        rcases hr : scan_entries emit p es 0 0 c1 with _ | ⟨ts2, ti2, c2, e2, early⟩
        · simp [hr, dirEvents]
          exact noDoneIn_nil
        · rw [hr] at hse
          simp only [entsEvents] at hse
          simp only [hr, dirEvents]
          refine noDoneIn_append (noDoneIn_append hcc hse) ?_
          cases early with
          | true => simpa using noDoneIn_nil
          | false =>
            cases emit with
            | false => simpa using noDoneIn_nil
            | true =>
              intro ev hev
              simp at hev
              subst hev
              rfl

theorem scan_entries_noDone (emit : Bool) (p : String) (es : FsEntries)
    (ts ti : Nat) (c : ControlState) :
    noDoneIn (entsEvents (scan_entries emit p es ts ti c)) := by
  cases es with
  | nil => simpa [scan_entries, entsEvents] using noDoneIn_nil
  | cons e rest =>
    cases e with
    | iterErr msg =>
      rw [scan_entries]
      have hse := scan_entries_noDone emit p rest ts ti c
      rcases hr : scan_entries emit p rest ts ti c with _ | ⟨ts2, ti2, c2, e2, early2⟩
      · simp [entsEvents]
        exact noDoneIn_nil
      · rw [hr] at hse
        simp only [entsEvents] at hse
        simp only [entsEvents]
        exact noDoneIn_cons rfl hse
    | node name metaRes symRes sub =>
      rw [scan_entries]
      have hcc := check_control_noDone c
      rcases hc : check_control c with _ | ⟨cont, c1, e1⟩
      · simp [entsEvents]
        exact noDoneIn_nil
      · rw [hc] at hcc
        simp only [ctlEvents] at hcc
        cases cont with
        | false => simpa [entsEvents] using hcc
        | true =>
          simp only [if_true]
          cases metaRes with
          | error msg =>
            have hse := scan_entries_noDone emit p rest ts ti c1
            rcases hr : scan_entries emit p rest ts ti c1 with _ | ⟨ts2, ti2, c2, e2, early2⟩
            · simp [entsEvents]
              exact noDoneIn_nil
            · rw [hr] at hse
              simp only [entsEvents] at hse
              simp only [entsEvents]
              exact noDoneIn_append hcc (noDoneIn_cons rfl hse)
          | ok m =>
            simp only
            by_cases hd : (m.isDir && !((Except.toOption symRes).getD false)) = true
            · simp only [hd, if_true]
              have hsd := scan_directory_noDone emit (childPath p name) sub c1
              rcases hr1 : scan_directory emit (childPath p name) sub c1 with
                _ | ⟨sz, ic, c2, e2⟩
              · simp [hr1, entsEvents]
                exact noDoneIn_nil
              · rw [hr1] at hsd
                simp only [dirEvents] at hsd
                have hse := scan_entries_noDone emit p rest (ts + sz) (ti + ic) c2
                rcases hr2 : scan_entries emit p rest (ts + sz) (ti + ic) c2 with
                  _ | ⟨ts3, ti3, c3, e3, early3⟩
                · simp [hr1, hr2, entsEvents]
                  exact noDoneIn_nil
                · rw [hr2] at hse
                  simp only [entsEvents] at hse
                  simp only [hr1, hr2, entsEvents]
                  refine noDoneIn_append (noDoneIn_append (noDoneIn_append hcc hsd) ?_) hse
                  cases emit with
                  | false => simpa using noDoneIn_nil
                  | true =>
                    intro ev hev
                    simp at hev
                    subst hev
                    rfl
            · simp only [hd, if_false]
              have hse := scan_entries_noDone emit p rest (ts + m.len) (ti + 1) c1
              rcases hr : scan_entries emit p rest (ts + m.len) (ti + 1) c1 with
                _ | ⟨ts2, ti2, c2, e2, early2⟩
              · simp [hr, entsEvents]
                exact noDoneIn_nil
              · rw [hr] at hse
                simp only [entsEvents] at hse
                simp only [hr, entsEvents]
                refine noDoneIn_append (noDoneIn_append hcc ?_) hse
                cases emit with
                | false => simpa using noDoneIn_nil
                | true =>
                  intro ev hev
                  simp at hev
                  subst hev
                  rfl
end

/-! ## Totals-only mode emits only `Error` events -/

mutual
theorem traceL_quiet_onlyErrors (p : String) (l : FsListing) :
    ∀ ev ∈ traceL false p l, ∃ pa m, ev = ScanMessage.Error pa m := by
  cases l with
  | err msg => simp [traceL]
  | ok es =>
    intro ev hev
    simp only [traceL, List.append_nil, if_false, Bool.false_eq_true] at hev
    exact traceE_quiet_onlyErrors p es ev (by simpa using hev)

theorem traceE_quiet_onlyErrors (p : String) (es : FsEntries) :
    ∀ ev ∈ traceE false p es, ∃ pa m, ev = ScanMessage.Error pa m := by
  cases es with
  | nil => simp [traceE]
  | cons e rest =>
    intro ev hev
    simp only [traceE, List.mem_append] at hev
    rcases hev with h | h
    · exact traceEntry_quiet_onlyErrors p e ev h
    · exact traceE_quiet_onlyErrors p rest ev h

theorem traceEntry_quiet_onlyErrors (p : String) (e : FsEntry) :
    ∀ ev ∈ traceEntry false p e, ∃ pa m, ev = ScanMessage.Error pa m := by
  cases e with
  | iterErr msg => intro ev hev; simp [traceEntry] at hev; subst hev; exact ⟨p, msg, rfl⟩
  | node name metaRes symRes sub =>
    cases metaRes with
    | error msg =>
      intro ev hev
      simp [traceEntry] at hev
      subst hev
      exact ⟨childPath p name, msg, rfl⟩
    | ok m =>
      intro ev hev
      by_cases hd : (m.isDir && !((Except.toOption symRes).getD false)) = true
      · simp only [traceEntry, hd, if_true, List.append_nil, Bool.false_eq_true] at hev
        exact traceL_quiet_onlyErrors (childPath p name) sub ev (by simpa using hev)
      · simp [traceEntry, hd] at hev
end

/-! ## Each streamed directory `Entry` is immediately preceded by its
`FolderComplete` (clean trees) -/

theorem lastO_append (xs ys : List ScanMessage) :
    ∀ prev, lastO prev (xs ++ ys) = lastO (lastO prev xs) ys := by
  induction xs with
  | nil => intro prev; rfl
  | cons x rest ih => intro prev; simp [lastO, ih]

theorem entryPreceded_append (xs ys : List ScanMessage) :
    ∀ prev, entryPreceded prev (xs ++ ys) =
      (entryPreceded prev xs && entryPreceded (lastO prev xs) ys) := by
  induction xs with
  | nil => intro prev; simp [entryPreceded, lastO]
  | cons x rest ih =>
    intro prev
    simp [entryPreceded, lastO, ih (some x), Bool.and_assoc]

mutual
theorem traceL_entryPreceded (p : String) (l : FsListing) (h : cleanL l = true) :
    ∀ prev, entryPreceded prev (traceL true p l) = true := by
  cases l with
  | err msg => simp [cleanL] at h
  | ok es =>
    intro prev
    have he := traceE_entryPreceded p es (by simpa [cleanL] using h) prev
    simp [traceL, entryPreceded_append, he, entryPreceded]

theorem traceE_entryPreceded (p : String) (es : FsEntries) (h : cleanE es = true) :
    ∀ prev, entryPreceded prev (traceE true p es) = true := by
  cases es with
  | nil => intro prev; rfl
  | cons e rest =>
    simp only [cleanE, Bool.and_eq_true] at h
    intro prev
    have h1 := traceEntry_entryPreceded p e h.1 prev
    have h2 := traceE_entryPreceded p rest h.2 (lastO prev (traceEntry true p e))
    simp [traceE, entryPreceded_append, h1, h2]

theorem traceEntry_entryPreceded (p : String) (e : FsEntry) (h : cleanEntry e = true) :
    ∀ prev, entryPreceded prev (traceEntry true p e) = true := by
  cases e with
  | iterErr msg => simp [cleanEntry] at h
  | node name metaRes symRes sub =>
    cases metaRes with
    | error msg => simp [cleanEntry] at h
    | ok m =>
      cases symRes with
      | error msg => simp [cleanEntry] at h
      | ok s =>
        simp only [cleanEntry, Bool.and_eq_true, Bool.not_eq_true'] at h
        obtain ⟨hs, hrec⟩ := h
        subst hs
        intro prev
        cases hm : m.isDir with
        | false =>
          simp [traceEntry, hm, entryPreceded, mkFileEntry, Except.toOption]
        | true =>
          have hsubclean : cleanL sub = true := by simpa [hm] using hrec
          cases sub with
          | err msg => simp [cleanL] at hsubclean
          | ok es' =>
            have h1 := traceL_entryPreceded (childPath p name) (.ok es') hsubclean prev
            have hlast : lastO prev (traceL true (childPath p name) (.ok es')) =
                some (ScanMessage.FolderComplete (childPath p name) (totalSizeE es')) := by
              simp [traceL, lastO_append, lastO]
            simp [traceEntry, hm, Except.toOption, entryPreceded_append, h1, hlast,
              entryPreceded, mkFileEntry, totalSizeL]
end

/-! ## Item counts carried by streamed `Entry` events (clean trees) -/

mutual
theorem traceL_item_count (p : String) (l : FsListing) (h : cleanL l = true) :
    ∀ fe, ScanMessage.Entry fe ∈ traceL true p l →
      (fe.is_dir = false → fe.item_count = 1) ∧
      (fe.is_dir = true → ∃ es, cleanE es = true ∧
        fe.item_count = fileCountE es ∧ fe.size = filesSizeE es) := by
  cases l with
  | err msg => simp [cleanL] at h
  | ok es =>
    intro fe hfe
    simp only [traceL, if_true, List.mem_append, List.mem_singleton] at hfe
    rcases hfe with hfe | hfe
    · exact traceE_item_count p es (by simpa [cleanL] using h) fe hfe
    · cases hfe

theorem traceE_item_count (p : String) (es : FsEntries) (h : cleanE es = true) :
    ∀ fe, ScanMessage.Entry fe ∈ traceE true p es →
      (fe.is_dir = false → fe.item_count = 1) ∧
      (fe.is_dir = true → ∃ es', cleanE es' = true ∧
        fe.item_count = fileCountE es' ∧ fe.size = filesSizeE es') := by
  cases es with
  | nil => simp [traceE]
  | cons e rest =>
    simp only [cleanE, Bool.and_eq_true] at h
    intro fe hfe
    simp only [traceE, List.mem_append] at hfe
    rcases hfe with hfe | hfe
    · exact traceEntry_item_count p e h.1 fe hfe
    · exact traceE_item_count p rest h.2 fe hfe

theorem traceEntry_item_count (p : String) (e : FsEntry) (h : cleanEntry e = true) :
    ∀ fe, ScanMessage.Entry fe ∈ traceEntry true p e →
      (fe.is_dir = false → fe.item_count = 1) ∧
      (fe.is_dir = true → ∃ es', cleanE es' = true ∧
        fe.item_count = fileCountE es' ∧ fe.size = filesSizeE es') := by
  cases e with
  | iterErr msg => simp [cleanEntry] at h
  | node name metaRes symRes sub =>
    cases metaRes with
    | error msg => simp [cleanEntry] at h
    | ok m =>
      cases symRes with
      | error msg => simp [cleanEntry] at h
      | ok s =>
        simp only [cleanEntry, Bool.and_eq_true, Bool.not_eq_true'] at h
        obtain ⟨hs, hrec⟩ := h
        subst hs
        intro fe hfe
        cases hm : m.isDir with
        | false =>
          simp only [traceEntry, hm, Except.toOption, Option.getD, Bool.false_and,
            Bool.false_eq_true, if_false, if_true, List.mem_singleton] at hfe
          injection hfe with hfe2
          constructor
          · intro _
            simp [hfe2, mkFileEntry]
          · intro hdir
            rw [hfe2] at hdir
            simp [mkFileEntry, hm] at hdir
        | true =>
          have hsubclean : cleanL sub = true := by simpa [hm] using hrec
          cases sub with
          | err msg => simp [cleanL] at hsubclean
          | ok es' =>
            simp only [traceEntry, hm, Except.toOption, Option.getD, Bool.not_false,
              Bool.and_self, if_true, List.mem_append, List.mem_singleton] at hfe
            rcases hfe with hfe | hfe
            · exact traceL_item_count (childPath p name) (.ok es') hsubclean fe hfe
            · injection hfe with hfe2
              constructor
              · intro hdir
                rw [hfe2] at hdir
                simp [mkFileEntry, hm] at hdir
              · intro _
                refine ⟨es', by simpa [cleanL] using hsubclean, ?_, ?_⟩
                · rw [hfe2]
                  simp only [mkFileEntry]
                  rw [totalItemsL_clean (.ok es') hsubclean]
                  rfl
                · rw [hfe2]
                  simp only [mkFileEntry]
                  rw [totalSizeL_clean (.ok es') hsubclean]
                  rfl
end

/-! ## Claim theorems -/

/-- C1: for every directory tree containing only regular files (no
symlinks, no read errors) and no control commands, the totals pair
returned by the traversal and carried in the `Done` event is
`(sum of all file byte sizes, number of files)`, with directory nodes
contributing nothing to the item count. -/
theorem c1_clean_scan_totals (p : String) (l : FsListing) (h : cleanL l = true) :
    scan p (some l) ctl0 =
      some (traceL true p l ++ [ScanMessage.Done (filesSizeL l) (fileCountL l)])
    ∧ scan_directory false p l ctl0 = some (filesSizeL l, fileCountL l, ctl0, []) := by
  constructor
  · simp [scan, scan_directory_ctl0, totalSizeL_clean l h, totalItemsL_clean l h]
  · rw [scan_directory_ctl0, totalSizeL_clean l h, totalItemsL_clean l h,
      traceL_clean_quiet p l h]

/-- C1 witness: the spec's scenario, a 10-byte `a.txt` and a 20-byte
`sub/b.bin`, yields `total_size = 30` and `total_items = 2`. -/
theorem c1_witness :
    cleanL exTree = true ∧ filesSizeL exTree = 30 ∧ fileCountL exTree = 2 ∧
      scan "r" (some exTree) ctl0 =
        some (traceL true "r" exTree ++
          [ScanMessage.Done (filesSizeL exTree) (fileCountL exTree)]) :=
  ⟨by decide, by decide, by decide, (c1_clean_scan_totals "r" exTree (by decide)).1⟩

/-- C2 counterexample: in the tree `a/b/f` (directories `a`, `b`, 3-byte
file `f`), the `Entry` event for directory `a` carries `item_count = 1`,
while the number of entries scanned in `a`'s subtree (every descendant
entry: `b` and `f`) is 2 — so a directory's `item_count` does not count
all descendant entries; descendant directories are not counted. -/
theorem c2_counterexample :
    ScanMessage.Entry ⟨"r/a", "a", 3, true, false, none, 1, "other"⟩ ∈
        dirEvents (scan_directory true "r" c2Tree ctl0)
      ∧ entryCountL c2SubA = 2 ∧ (1 : Nat) ≠ 2 := by
  decide

/-- C2 amended: for every directory node visited during a command-free
scan of a clean tree, the `item_count` recorded in its `FileEntry` equals
the count of the non-directory entries scanned in its subtree recursively
(descendant directories contribute their own counts but are not themselves
counted), while for every non-directory entry `item_count` equals 1. -/
theorem c2_amended (p : String) (l : FsListing) (h : cleanL l = true) :
    scan_directory true p l ctl0 =
      some (totalSizeL l, totalItemsL l, ctl0, traceL true p l)
    ∧ totalItemsL l = fileCountL l
    ∧ ∀ fe, ScanMessage.Entry fe ∈ traceL true p l →
        (fe.is_dir = false → fe.item_count = 1) ∧
        (fe.is_dir = true → ∃ es, cleanE es = true ∧
          fe.item_count = fileCountE es ∧ fe.size = filesSizeE es) :=
  ⟨scan_directory_ctl0 true p l, totalItemsL_clean l h, traceL_item_count p l h⟩

/-- C2 witness: the amended claim applied to the example tree. -/
theorem c2_witness :
    cleanL exTree = true ∧
      scan_directory true "r" exTree ctl0 =
        some (totalSizeL exTree, totalItemsL exTree, ctl0, traceL true "r" exTree) :=
  ⟨by decide, (c2_amended "r" exTree (by decide)).1⟩

/-- C3: an entry reported as a symlink is never recursed into, whatever it
points to: the scan result does not depend on the symlink's target
listing, and (in a command-free run) the entry contributes exactly its own
metadata length and an item count of 1, producing at most the single
`Entry` event for itself — never events for the target's contents. -/
theorem c3_symlink_never_recursed (emit : Bool) (p n : String) (m : FsMeta)
    (sub sub' : FsListing) (rest : FsEntries) (ts ti : Nat) (c : ControlState) :
    scan_entries emit p (.cons (.node n (.ok m) (.ok true) sub) rest) ts ti c
      = scan_entries emit p (.cons (.node n (.ok m) (.ok true) sub') rest) ts ti c
    ∧ scan_entries emit p (.cons (.node n (.ok m) (.ok true) sub) rest) ts ti ctl0
      = some (ts + (m.len + totalSizeE rest), ti + (1 + totalItemsE rest), ctl0,
          (if emit then
            [ScanMessage.Entry (mkFileEntry (childPath p n) n m.len m true 1)]
           else []) ++ traceE emit p rest, false) := by
  constructor
  · simp [scan_entries, Except.toOption, Bool.and_false]
  · have h := scan_entries_ctl0 emit p
      (.cons (.node n (.ok m) (.ok true) sub) rest) ts ti
    simpa [totalSizeE, totalItemsE, traceE, totalSizeEntry, totalItemsEntry,
      traceEntry, Except.toOption, Bool.and_false] using h

/-- C4 counterexample: scanning a root containing directory `sub`, with a
`cancel` delivered at the checkpoint at the start of scanning `sub`, the
parent still emits the `Entry` event for `sub` (and its own
`FolderComplete`) after the checkpoint that observed the cancellation —
so "no Entry event is emitted after the checkpoint that observed the
cancellation" fails. -/
theorem c4_counterexample :
    scan "r" (some c4Tree) c4Ctl =
      some [ScanMessage.Status "cancelled",
        ScanMessage.Entry ⟨"r/sub", "sub", 0, true, false, none, 0, "other"⟩,
        ScanMessage.FolderComplete "r" 0, ScanMessage.Done 0 0]
    ∧ noEntryAfterCancel [ScanMessage.Status "cancelled",
        ScanMessage.Entry ⟨"r/sub", "sub", 0, true, false, none, 0, "other"⟩,
        ScanMessage.FolderComplete "r" 0, ScanMessage.Done 0 0] = false := by
  decide

/-- C4 amended: once cancellation has been observed, no directory is
descended into any further — a subtree scan started in a cancelled state
contributes nothing and emits nothing (so only the entries of the
partially-scanned ancestors on the recursion stack can still produce
events); and the terminal `Done` is still emitted, exactly once, as it
never occurs among the traversal's own events. -/
theorem c4_amended :
    (∀ (emit : Bool) (p : String) (l : FsListing) (c : ControlState),
        c.cancelled = true → scan_directory emit p l c = some (0, 0, c, []))
    ∧ (∀ (p : String) (l : FsListing) (c : ControlState) (evs : List ScanMessage),
        scan p (some l) c = some evs →
        ∃ ts ti pre, evs = pre ++ [ScanMessage.Done ts ti] ∧
          ∀ a b, ScanMessage.Done a b ∉ pre) := by
  constructor
  · intro emit p l c hc
    rw [scan_directory, check_control_cancelled c hc]
    simp
  · intro p l c evs h
    have hnd := scan_directory_noDone true p l c
    rcases hr : scan_directory true p l c with _ | ⟨ts, ti, c2, e⟩
    · rw [scan, hr] at h
      simp at h
    · rw [scan, hr] at h
      simp only [Option.some.injEq] at h
      rw [hr] at hnd
      simp only [dirEvents] at hnd
      refine ⟨ts, ti, e, h.symm, ?_⟩
      intro a b hmem
      have hfalse := hnd _ hmem
      simp [isDoneMsg] at hfalse

/-- C4 witness: a scan started with the cancelled flag set returns `(0,0)`
with no events at all. -/
theorem c4_witness :
    scan_directory true "r" c4Tree ⟨false, true, []⟩ =
      some (0, 0, ⟨false, true, []⟩, []) :=
  c4_amended.1 true "r" c4Tree ⟨false, true, []⟩ rfl

/-- C5: in a command-free streaming scan the event sequence is exactly the
depth-first post-order trace: a directory's `FolderComplete` is the last
event of its subtree's block, after all `Entry`/`FolderComplete` events of
its direct children, and `Done` is the last event of the scan. -/
theorem c5_postorder (p : String) (l : FsListing) :
    scan p (some l) ctl0 =
      some (traceL true p l ++ [ScanMessage.Done (totalSizeL l) (totalItemsL l)])
    ∧ (∀ es, traceL true p (.ok es) =
        traceE true p es ++ [ScanMessage.FolderComplete p (totalSizeE es)])
    ∧ (∀ evs, scan p (some l) ctl0 = some evs →
        evs.getLast? = some (ScanMessage.Done (totalSizeL l) (totalItemsL l)))
    ∧ (∀ (c : ControlState) (evs : List ScanMessage), scan p (some l) c = some evs →
        ∃ ts ti, evs.getLast? = some (ScanMessage.Done ts ti)) := by
  have h1 : scan p (some l) ctl0 =
      some (traceL true p l ++ [ScanMessage.Done (totalSizeL l) (totalItemsL l)]) := by
    simp [scan, scan_directory_ctl0]
  refine ⟨h1, fun es => by simp [traceL], ?_, ?_⟩
  · intro evs h
    rw [h1] at h
    simp only [Option.some.injEq] at h
    rw [← h]
    simp
  · intro c evs h
    rcases hr : scan_directory true p l c with _ | ⟨ts, ti, c2, e⟩
    · rw [scan, hr] at h
      simp at h
    · rw [scan, hr] at h
      simp only [Option.some.injEq] at h
      refine ⟨ts, ti, ?_⟩
      rw [← h]
      simp

/-- C5 witness: the example tree's scan is exactly its post-order trace
followed by `Done`. -/
theorem c5_witness :
    scan "r" (some exTree) ctl0 =
      some (traceL true "r" exTree ++
        [ScanMessage.Done (totalSizeL exTree) (totalItemsL exTree)]) :=
  (c5_postorder "r" exTree).1

/-- C6: for every root path that does not exist, `scan` emits exactly one
`Error` event referencing that path and returns without emitting `Done`
(and without any traversal). -/
theorem c6_nonexistent_root (p : String) (c : ControlState) :
    scan p none c = some [ScanMessage.Error p "Path does not exist"] := rfl

/-- C7 counterexample: in totals-only mode (events suppressed, as used by
`compute_directory_totals`), an entry whose metadata retrieval fails still
emits an `Error` event — the traversal does not emit "no events at all". -/
theorem c7_counterexample :
    scan_directory false "r" c7Tree ctl0 =
      some (0, 0, ctl0, [ScanMessage.Error "r/f" "boom"])
    ∧ ([ScanMessage.Error "r/f" "boom"] : List ScanMessage) ≠ [] := by
  decide

/-- C7 amended: in totals-only mode with no commands the traversal emits
no `Entry`, `FolderComplete` or `Status` events — every event it emits is
an `Error` (from an entry-iteration or metadata failure; unlistable
directories are silent in this mode) — and on a clean tree it emits
nothing at all. -/
theorem c7_amended :
    (∀ (p : String) (l : FsListing),
        scan_directory false p l ctl0 =
          some (totalSizeL l, totalItemsL l, ctl0, traceL false p l))
    ∧ (∀ (p : String) (l : FsListing) (ev : ScanMessage),
        ev ∈ traceL false p l → ∃ pa m, ev = ScanMessage.Error pa m)
    ∧ (∀ (p : String) (l : FsListing), cleanL l = true → traceL false p l = [])
    ∧ (∀ (p : String) (l : FsListing),
        compute_directory_totals p (some l) =
          Except.ok (totalSizeL l, totalItemsL l)) := by
  refine ⟨fun p l => scan_directory_ctl0 false p l,
    fun p l => traceL_quiet_onlyErrors p l,
    fun p l h => traceL_clean_quiet p l h, ?_⟩
  intro p l
  simp [compute_directory_totals, scan_directory_ctl0]

/-- C7 witness: the clean example tree's totals-only run emits nothing. -/
theorem c7_witness : traceL false "r" exTree = [] :=
  c7_amended.2.2.1 "r" exTree (by decide)

/-- C8: a directory whose contents cannot be listed yields an `Error`
event for its path (when streaming), a `(0,0)` result for that subtree —
so it contributes nothing to its parent's totals — and the traversal of
its siblings (`rest`) continues unaffected. -/
theorem c8_unreadable_directory (emit : Bool) (p n msg : String) (len : Nat)
    (mo : Option Nat) (rest : FsEntries) (ts ti : Nat) :
    scan_directory emit p (.err msg) ctl0 =
      some (0, 0, ctl0, if emit then [ScanMessage.Error p msg] else [])
    ∧ scan_entries emit p
        (.cons (.node n (.ok ⟨len, true, mo⟩) (.ok false) (.err msg)) rest) ts ti ctl0
      = some (ts + totalSizeE rest, ti + totalItemsE rest, ctl0,
          ((if emit then [ScanMessage.Error (childPath p n) msg] else []) ++
            (if emit then
              [ScanMessage.Entry (mkFileEntry (childPath p n) n 0 ⟨len, true, mo⟩ false 0)]
             else [])) ++ traceE emit p rest, false) := by
  constructor
  · have h := scan_directory_ctl0 emit p (.err msg)
    simpa [totalSizeL, totalItemsL, traceL] using h
  · have h := scan_entries_ctl0 emit p
      (.cons (.node n (.ok ⟨len, true, mo⟩) (.ok false) (.err msg)) rest) ts ti
    simpa [totalSizeE, totalItemsE, traceE, totalSizeEntry, totalItemsEntry,
      traceEntry, totalSizeL, totalItemsL, traceL, Except.toOption] using h

/-- C9: an entry whose metadata retrieval fails yields an `Error` event
for that entry's path (in both emission modes) and is skipped entirely:
it contributes nothing to the totals, is not recursed into (the result
does not depend on `sub`), and produces no `Entry` event. -/
theorem c9_metadata_failure (emit : Bool) (p n msg : String)
    (symRes : Except String Bool) (sub : FsListing) (rest : FsEntries) (ts ti : Nat) :
    scan_entries emit p (.cons (.node n (.error msg) symRes sub) rest) ts ti ctl0
      = some (ts + totalSizeE rest, ti + totalItemsE rest, ctl0,
          ScanMessage.Error (childPath p n) msg :: traceE emit p rest, false) := by
  have h := scan_entries_ctl0 emit p
    (.cons (.node n (.error msg) symRes sub) rest) ts ti
  simpa [totalSizeE, totalItemsE, traceE, totalSizeEntry, totalItemsEntry,
    traceEntry] using h

/-- C10 counterexample: a non-symlink directory `d` whose listing fails is
visited and gets an `Entry` event, but no `FolderComplete` event for its
path is ever emitted — in particular none before its `Entry`. -/
theorem c10_counterexample :
    scan "r" (some c10Tree) ctl0 =
      some [ScanMessage.Error "r/d" "denied",
        ScanMessage.Entry ⟨"r/d", "d", 0, true, false, none, 0, "other"⟩,
        ScanMessage.FolderComplete "r" 0, ScanMessage.Done 0 0]
    ∧ hasFolderCompleteFor "r/d" [ScanMessage.Error "r/d" "denied",
        ScanMessage.Entry ⟨"r/d", "d", 0, true, false, none, 0, "other"⟩,
        ScanMessage.FolderComplete "r" 0, ScanMessage.Done 0 0] = false := by
  decide

/-- C10 amended: in a command-free streaming scan of a clean tree, every
`Entry` event whose record says `is_dir` is immediately preceded by the
`FolderComplete` event for that same path, and that `FolderComplete`
carries `total_size` equal to the `size` field of the `Entry`. -/
theorem c10_amended (p : String) (l : FsListing) (h : cleanL l = true) :
    scan p (some l) ctl0 =
      some (traceL true p l ++ [ScanMessage.Done (totalSizeL l) (totalItemsL l)])
    ∧ entryPreceded none (traceL true p l) = true := by
  constructor
  · simp [scan, scan_directory_ctl0]
  · exact traceL_entryPreceded p l h none

/-- C10 witness: the property holds on the example tree's trace. -/
theorem c10_witness : entryPreceded none (traceL true "r" exTree) = true :=
  (c10_amended "r" exTree (by decide)).2
